import Mathlib

/-!
Shallow embedding of the waybar-crypto-ticker core (src/ticker.rs,
src/websocket.rs, and the draw/animation logic of src/main.rs).

Rust `f64` is modelled by `F64`, exact fractions `num / den` with a
positive denominator: every operation the embedded code performs
(comparison, add, sub, mul, div, truncating remainder) is exact
arithmetic here, and the decimal literals of the source are read as exact
decimal fractions.  Rust's `format!("{:.d}", x)` fixed-point rendering is
modelled by `formatFixed` (round half to even on the exact value, sign
taken from the operand).  `HashMap<String, CoinData>` is modelled by a
total function `String → Option CoinData`, faithful to the `get` /
`get_mut` / `insert` API the source uses (iteration order of the map is
never used: rendering iterates the configured coin list).
-/

namespace CryptoTicker

/-- Exact model of a binary64 value as a fraction with positive
denominator.  Fractions are not kept reduced; all observations the
embedded code makes (comparisons, floor, truncation) are
representation-independent. -/
structure F64 where
  num : ℤ
  den : ℤ
  den_pos : 0 < den

namespace F64

instance : OfNat F64 n := ⟨⟨(n : ℤ), 1, one_pos⟩⟩

/-- Decimal literals such as `45231.7` denote the exact decimal fraction. -/
instance : OfScientific F64 :=
  ⟨fun m b e =>
    if b then ⟨(m : ℤ), (10 : ℤ) ^ e, pow_pos (by norm_num) e⟩
    else ⟨(m : ℤ) * (10 : ℤ) ^ e, 1, one_pos⟩⟩

/-- Embeds an integer. -/
def ofInt (n : ℤ) : F64 := ⟨n, 1, one_pos⟩

instance : Neg F64 := ⟨fun a => ⟨-a.num, a.den, a.den_pos⟩⟩

instance : Add F64 :=
  ⟨fun a b => ⟨a.num * b.den + b.num * a.den, a.den * b.den, mul_pos a.den_pos b.den_pos⟩⟩

instance : Sub F64 :=
  ⟨fun a b => ⟨a.num * b.den - b.num * a.den, a.den * b.den, mul_pos a.den_pos b.den_pos⟩⟩

instance : Mul F64 :=
  ⟨fun a b => ⟨a.num * b.num, a.den * b.den, mul_pos a.den_pos b.den_pos⟩⟩

/-- Exact division.  The source only ever divides by values it has
checked to be positive (or, for the scroll remainder, ones the
surrounding claim assumes positive), so the zero-divisor branch is never
exercised. -/
instance : Div F64 :=
  ⟨fun a b =>
    if h : 0 < b.num then ⟨a.num * b.den, a.den * b.num, mul_pos a.den_pos h⟩
    else if h2 : b.num < 0 then
      ⟨-(a.num * b.den), a.den * -b.num, mul_pos a.den_pos (neg_pos.mpr h2)⟩
    else ⟨0, 1, one_pos⟩⟩

instance : LT F64 := ⟨fun a b => a.num * b.den < b.num * a.den⟩

instance : LE F64 := ⟨fun a b => a.num * b.den ≤ b.num * a.den⟩

instance (a b : F64) : Decidable (a < b) := Int.decLt _ _

instance (a b : F64) : Decidable (a ≤ b) := Int.decLe _ _

/-- Structural (representation) equality; used only on values built by
identical computations, where it coincides with value equality. -/
instance : DecidableEq F64 := fun a b =>
  decidable_of_iff (a.num = b.num ∧ a.den = b.den) (by cases a; cases b; simp)

/-- Absolute value. -/
def abs (a : F64) : F64 := ⟨|a.num|, a.den, a.den_pos⟩

/-- Floor to an integer. -/
def floor (a : F64) : ℤ := Int.fdiv a.num a.den

/-- Truncation toward zero, as Rust float-to-int and `%` semantics use. -/
def trunc (a : F64) : ℤ := Int.tdiv a.num a.den

end F64

/-- Model of Rust `x % y` on floats: `x - trunc(x / y) * y`. -/
def fmod (x y : F64) : F64 := x - F64.ofInt ((x / y).trunc) * y

/-- Left-pads a digit string with zeros up to width `d`. -/
def padZeros (s : String) (d : ℕ) : String :=
  String.mk (List.replicate (d - s.length) '0') ++ s

/-- Rounding to the nearest integer, ties to even, as IEEE-754 formatting
does on the scaled value. -/
def roundHalfEven (q : F64) : ℤ :=
  let n := q.floor
  let frac := q - F64.ofInt n
  if frac < F64.ofInt 1 / F64.ofInt 2 then n
  else if F64.ofInt 1 / F64.ofInt 2 < frac then n + 1
  else if n % 2 = 0 then n else n + 1

/-- Model of Rust `format!("{:.d}", x)`: sign of the operand, then the
absolute value rounded to `d` decimal places. -/
def formatFixed (d : ℕ) (x : F64) : String :=
  let sign := if x < 0 then "-" else ""
  let n := (roundHalfEven (x.abs * F64.ofInt (10 ^ d))).toNat
  let ip := n / 10 ^ d
  let fp := n % 10 ^ d
  if d = 0 then sign ++ toString ip
  else sign ++ toString ip ++ "." ++ padZeros (toString fp) d

/-- Price movement direction for coloring (ticker.rs `Direction`). -/
inductive Direction where
  | Up
  | Down
  | Neutral
  deriving DecidableEq, Repr

/-- A rendered segment of the ticker display (ticker.rs `Segment`). -/
structure Segment where
  text : String
  direction : Direction
  icon : Option String
  deriving DecidableEq, Repr

/-- Price data for a single coin (ticker.rs `CoinData`). -/
structure CoinData where
  price : F64
  open_24h : F64
  deriving DecidableEq

/-- One configured coin (config.rs `CoinConfig`). -/
structure CoinConfig where
  symbol : String
  name : String
  icon : String
  deriving DecidableEq

/-- The part of config.rs `Config` the ticker core reads. -/
structure Config where
  coins : List CoinConfig

/-- Model of `HashMap<String, CoinData>` restricted to the used API. -/
abbrev PriceMap := String → Option CoinData

/-- Ticker state (ticker.rs `TickerState`). -/
structure TickerState where
  prices : PriceMap
  coins : List CoinConfig
  segments : List Segment

/-- Separator string constant (ticker.rs `SEPARATOR`). -/
def SEPARATOR : String := "     ·     "

/-- Percentage-change text and direction for a symbol
(ticker.rs `TickerState::get_change`; it reads only `self.prices`,
modelled here as the explicit `prices` argument). -/
def get_change (prices : PriceMap) (symbol : String) : String × Direction :=
  match prices symbol with
  | some data =>
    if 0 < data.open_24h then
      let change := (data.price - data.open_24h) / data.open_24h * 100
      if 1/100 < change then ("+" ++ formatFixed 1 change ++ "%▲", Direction.Up)
      else if change < -(1/100) then (formatFixed 1 change ++ "%▼", Direction.Down)
      else (formatFixed 1 change ++ "%", Direction.Neutral)
    else ("--", Direction.Neutral)
  | none => ("--", Direction.Neutral)

/-- Tiered price formatting (ticker.rs `TickerState::format_price`). -/
def format_price (price : F64) : String :=
  if 1000 ≤ price then "$" ++ formatFixed 0 price
  else if 1 ≤ price then "$" ++ formatFixed 2 price
  else if 1/100 ≤ price then "$" ++ formatFixed 4 price
  else "$" ++ formatFixed 6 price

/-- Activity test of `rebuild_segments`: the coin has a record with a
positive price (`self.prices.get(&c.symbol).map_or(false, |d| d.price > 0.0)`). -/
def activeBool (prices : PriceMap) (c : CoinConfig) : Bool :=
  match prices c.symbol with
  | some d => decide (0 < d.price)
  | none => false

/-- Count of configured coins whose current price is positive
(the `active_count` local of `rebuild_segments`). -/
def activeCount (prices : PriceMap) (coins : List CoinConfig) : ℕ :=
  (coins.filter (activeBool prices)).length

/-- Loop body of `rebuild_segments` for one configured coin: nothing for a
missing or non-positively-priced record, otherwise the price segment
followed by a separator segment whenever `active_count > 1`. -/
def segmentsForCoin (prices : PriceMap) (ac : ℕ) (coin : CoinConfig) : List Segment :=
  match prices coin.symbol with
  | none => []
  | some data =>
    if data.price ≤ 0 then []
    else
      { text := format_price data.price ++ " " ++ (get_change prices coin.symbol).1,
        direction := (get_change prices coin.symbol).2,
        icon := some coin.icon } ::
      (if 1 < ac then
        [{ text := SEPARATOR, direction := Direction.Neutral, icon := none }]
      else [])

/-- Segment list produced by `TickerState::rebuild_segments` from the
current prices and configured coins. -/
def computeSegments (prices : PriceMap) (coins : List CoinConfig) : List Segment :=
  coins.flatMap (segmentsForCoin prices (activeCount prices coins))

/-- The price segment the rebuild loop emits for one coin that has a
record (the push at ticker.rs:116-120); the `none` fallback is never
reached for coins that pass the activity check. -/
def priceSegment (prices : PriceMap) (c : CoinConfig) : Segment :=
  match prices c.symbol with
  | some d =>
    { text := format_price d.price ++ " " ++ (get_change prices c.symbol).1,
      direction := (get_change prices c.symbol).2,
      icon := some c.icon }
  | none => { text := "", direction := Direction.Neutral, icon := some c.icon }

/-- Full-rebuild step (ticker.rs `TickerState::rebuild_segments`). -/
def rebuild_segments (st : TickerState) : TickerState :=
  { st with segments := computeSegments st.prices st.coins }

/-- Price update (ticker.rs `TickerState::update_price`): an existing
record keeps its `open_24h` and only `price` changes; a new record seeds
`open_24h = price`; always followed by a rebuild. -/
def update_price (st : TickerState) (symbol : String) (price : F64) : TickerState :=
  let prices : PriceMap :=
    match st.prices symbol with
    | some data => fun s => if s = symbol then some { data with price := price } else st.prices s
    | none => fun s => if s = symbol then some { price := price, open_24h := price } else st.prices s
  rebuild_segments { st with prices := prices }

/-- Reference-open update (ticker.rs `TickerState::set_open_price`): an
existing record keeps its `price` and only `open_24h` changes; a new
record seeds `price = 0`; always followed by a rebuild. -/
def set_open_price (st : TickerState) (symbol : String) (openp : F64) : TickerState :=
  let prices : PriceMap :=
    match st.prices symbol with
    | some data => fun s => if s = symbol then some { data with open_24h := openp } else st.prices s
    | none => fun s => if s = symbol then some { price := 0, open_24h := openp } else st.prices s
  rebuild_segments { st with prices := prices }

/-- Fresh state (ticker.rs `TickerState::new`). -/
def TickerState.new (config : Config) : TickerState :=
  { prices := fun _ => none, coins := config.coins, segments := [] }

/-- One mutation of the public contract of the price store. -/
inductive Op where
  | upd (sym : String) (price : F64)
  | setOpen (sym : String) (openp : F64)

/-- Applies one mutation. -/
def applyOp (st : TickerState) : Op → TickerState
  | Op.upd sym price => update_price st sym price
  | Op.setOpen sym openp => set_open_price st sym openp

/-- Applies a sequence of mutations left to right. -/
def applyOps (st : TickerState) (ops : List Op) : TickerState :=
  ops.foldl applyOp st

/-- Streaming-to-reference symbol translation
(websocket.rs `ws_to_rest_symbol`): a fixed table for the three
special-cased pairs, otherwise strip `/` and uppercase.  Uppercasing is
modelled per character with `Char.toUpper` (ASCII), which agrees with
Rust `to_uppercase` on the ASCII instrument names in scope. -/
def removeSlash (s : String) : String := String.mk (s.data.filter (fun c => c ≠ '/'))

/-- Character-wise uppercasing of a string. -/
def toUpperStr (s : String) : String := String.mk (s.data.map Char.toUpper)

/-- Symbol translation table and fallback (websocket.rs `ws_to_rest_symbol`). -/
def ws_to_rest_symbol (ws_symbol : String) : String :=
  if ws_symbol = "BTC/USD" then "XXBTZUSD"
  else if ws_symbol = "ETH/USD" then "XETHZUSD"
  else if ws_symbol = "XRP/USD" then "XXRPZUSD"
  else toUpperStr (removeSlash ws_symbol)

/-- One decoded entry of a ticker-channel message
(websocket.rs `TickerData`). -/
structure TickerData where
  symbol : Option String
  last : Option F64
  change : Option F64

/-- Processing of one ticker-channel entry
(websocket.rs `connect_and_stream`, message loop body): with a symbol and
a last price present, apply `update_price`; with a change value also
present, derive `open = last - change` and apply `set_open_price` only
when that is positive. -/
def process_ticker_entry (st : TickerState) (t : TickerData) : TickerState :=
  match t.symbol, t.last with
  | some symbol, some price =>
    let st1 := update_price st symbol price
    (match t.change with
    | some change =>
      let openp := price - change
      if 0 < openp then set_open_price st1 symbol openp else st1
    | none => st1)
  | _, _ => st

/-- Draw-pass start positions emitted per frame (main.rs `build_ui`
draw function): pass 1 at `-effective_offset`, pass 2 at
`use_width - effective_offset` only when that is left of the viewport
right edge. -/
def draw_passes (offset use_width viewport : F64) : List F64 :=
  let eff := fmod offset use_width
  let start2 := use_width - eff
  if start2 < viewport then [-eff, start2] else [-eff]

/-- Animation-timer step (main.rs `build_ui` timeout closure): advance by
`speed / fps`, then wrap by one subtraction once the cached width is
reached. -/
def advance_offset (off speed fps cached : F64) : F64 :=
  let off1 := off + speed / fps
  if 0 < cached ∧ cached ≤ off1 then off1 - cached else off1

theorem F64.lt_def (a b : F64) : a < b ↔ a.num * b.den < b.num * a.den := Iff.rfl

theorem F64.le_def (a b : F64) : a ≤ b ↔ a.num * b.den ≤ b.num * a.den := Iff.rfl

theorem F64.not_le {a b : F64} : ¬ a ≤ b ↔ b < a := by
  rw [F64.le_def, F64.lt_def]; omega

theorem F64.not_lt {a b : F64} : ¬ a < b ↔ b ≤ a := by
  rw [F64.lt_def, F64.le_def]; omega

theorem F64.sub_num (a b : F64) : (a - b).num = a.num * b.den - b.num * a.den := rfl

theorem F64.sub_den (a b : F64) : (a - b).den = a.den * b.den := rfl

theorem F64.mul_num (a b : F64) : (a * b).num = a.num * b.num := rfl

theorem F64.mul_den (a b : F64) : (a * b).den = a.den * b.den := rfl

theorem F64.div_num_of_pos {b : F64} (a : F64) (h : 0 < b.num) :
    (a / b).num = a.num * b.den ∧ (a / b).den = a.den * b.num := by
  show ((if h : 0 < b.num then _ else _ : F64).num = _) ∧ ((if h : 0 < b.num then _ else _ : F64).den = _)
  rw [dif_pos h]; exact ⟨rfl, rfl⟩

theorem F64.zero_num : (0 : F64).num = 0 := rfl

theorem F64.zero_den : (0 : F64).den = 1 := rfl

theorem F64.pos_num {a : F64} (h : 0 < a) : 0 < a.num := by
  rw [F64.lt_def] at h
  simpa [F64.zero_num, F64.zero_den] using h

/-- Fixed-point rendering of any value whose numerator is zero, at one
decimal place. -/
theorem formatFixed_one_num_zero (x : F64) (hx : x.num = 0) : formatFixed 1 x = "0.0" := by
  have hd : 0 < x.den := x.den_pos
  have hsign : ¬ x < 0 := by
    rw [F64.lt_def, hx, F64.zero_num, F64.zero_den]
    simp
  have habs : (x.abs * F64.ofInt (10 ^ 1)).num = 0 := by
    rw [F64.mul_num]; show |x.num| * 10 = 0; simp [hx]
  have habsden : 0 < (x.abs * F64.ofInt (10 ^ 1)).den := (x.abs * F64.ofInt (10 ^ 1)).den_pos
  unfold formatFixed roundHalfEven
  rw [if_neg hsign]
  have hfloor : (x.abs * F64.ofInt (10 ^ 1)).floor = 0 := by
    unfold F64.floor; rw [habs]; exact Int.zero_fdiv _
  rw [hfloor]
  have hfrac : (x.abs * F64.ofInt (10 ^ 1) - F64.ofInt 0) < F64.ofInt 1 / F64.ofInt 2 := by
    rw [F64.lt_def, F64.sub_num, habs]
    show (0 * 1 - 0 * _) * 2 < 1 * ((x.abs * F64.ofInt (10 ^ 1)).den * 1)
    simpa using habsden
  rw [if_pos hfrac]
  rfl

theorem update_price_coins (st : TickerState) (sym : String) (p : F64) :
    (update_price st sym p).coins = st.coins := rfl

theorem set_open_price_coins (st : TickerState) (sym : String) (openp : F64) :
    (set_open_price st sym openp).coins = st.coins := rfl

theorem update_price_prices_some (st : TickerState) (sym : String) (p : F64) (d : CoinData)
    (h : st.prices sym = some d) :
    (update_price st sym p).prices
      = fun s => if s = sym then some ⟨p, d.open_24h⟩ else st.prices s := by
  unfold update_price rebuild_segments
  rw [h]

theorem update_price_prices_none (st : TickerState) (sym : String) (p : F64)
    (h : st.prices sym = none) :
    (update_price st sym p).prices
      = fun s => if s = sym then some ⟨p, p⟩ else st.prices s := by
  unfold update_price rebuild_segments
  rw [h]

theorem set_open_price_prices_some (st : TickerState) (sym : String) (openp : F64) (d : CoinData)
    (h : st.prices sym = some d) :
    (set_open_price st sym openp).prices
      = fun s => if s = sym then some ⟨d.price, openp⟩ else st.prices s := by
  unfold set_open_price rebuild_segments
  rw [h]

theorem set_open_price_prices_none (st : TickerState) (sym : String) (openp : F64)
    (h : st.prices sym = none) :
    (set_open_price st sym openp).prices
      = fun s => if s = sym then some ⟨0, openp⟩ else st.prices s := by
  unfold set_open_price rebuild_segments
  rw [h]

theorem applyOp_coins (st : TickerState) (op : Op) : (applyOp st op).coins = st.coins := by
  cases op <;> rfl

theorem applyOps_coins (ops : List Op) : ∀ st : TickerState, (applyOps st ops).coins = st.coins := by
  induction ops with
  | nil => intro st; rfl
  | cons op ops ih =>
    intro st
    show (applyOps (applyOp st op) ops).coins = st.coins
    rw [ih, applyOp_coins]

theorem applyOp_segments (st : TickerState) (op : Op) :
    (applyOp st op).segments
      = computeSegments (applyOp st op).prices (applyOp st op).coins := by
  cases op <;> rfl

theorem flatMap_segmentsForCoin_empty (ac : ℕ) (coins : List CoinConfig) :
    coins.flatMap (segmentsForCoin (fun _ => none) ac) = [] := by
  induction coins with
  | nil => rfl
  | cons c cs ih => simp [segmentsForCoin, ih]

theorem computeSegments_empty (coins : List CoinConfig) :
    computeSegments (fun _ => none) coins = [] :=
  flatMap_segmentsForCoin_empty _ coins

theorem new_segments (cfg : Config) :
    (TickerState.new cfg).segments
      = computeSegments (TickerState.new cfg).prices (TickerState.new cfg).coins := by
  show [] = computeSegments (fun _ => none) cfg.coins
  rw [computeSegments_empty]

theorem applyOps_segments (ops : List Op) : ∀ st : TickerState,
    st.segments = computeSegments st.prices st.coins →
    (applyOps st ops).segments
      = computeSegments (applyOps st ops).prices (applyOps st ops).coins := by
  induction ops with
  | nil => intro st h; exact h
  | cons op ops ih => intro st _; exact ih _ (applyOp_segments st op)

theorem segmentsForCoin_filter_isSome (prices : PriceMap) (ac : ℕ) (c : CoinConfig) :
    (segmentsForCoin prices ac c).filter (fun s => s.icon.isSome)
      = if activeBool prices c then [priceSegment prices c] else [] := by
  rcases hm : prices c.symbol with _ | d <;>
    simp only [segmentsForCoin, activeBool, priceSegment, hm]
  · rfl
  · by_cases hle : d.price ≤ 0
    · rw [if_pos hle, decide_eq_false (F64.not_lt.mpr hle)]
      rfl
    · rw [if_neg hle, decide_eq_true (F64.not_le.mp hle)]
      by_cases hac : 1 < ac
      · rw [if_pos hac]
        rfl
      · rw [if_neg hac]
        rfl

theorem segmentsForCoin_filter_isNone (prices : PriceMap) (ac : ℕ) (c : CoinConfig) :
    (segmentsForCoin prices ac c).filter (fun s => s.icon.isNone)
      = if activeBool prices c ∧ 1 < ac then
          [{ text := SEPARATOR, direction := Direction.Neutral, icon := none }]
        else [] := by
  rcases hm : prices c.symbol with _ | d <;>
    simp only [segmentsForCoin, activeBool, hm]
  · simp
  · by_cases hle : d.price ≤ 0
    · rw [if_pos hle, decide_eq_false (F64.not_lt.mpr hle)]
      simp
    · rw [if_neg hle, decide_eq_true (F64.not_le.mp hle)]
      by_cases hac : 1 < ac
      · rw [if_pos hac]
        simp [hac]
      · rw [if_neg hac]
        simp [hac]

theorem filter_flatMap_list {α β : Type} (l : List α) (f : α → List β) (p : β → Bool) :
    (l.flatMap f).filter p = l.flatMap (fun a => (f a).filter p) := by
  induction l with
  | nil => rfl
  | cons a t ih => rw [List.flatMap_cons, List.flatMap_cons, List.filter_append, ih]

theorem flatMap_ite_singleton {α β : Type} (l : List α) (p : α → Bool) (g : α → β) :
    (l.flatMap fun a => if p a then [g a] else []) = (l.filter p).map g := by
  induction l with
  | nil => rfl
  | cons a t ih => by_cases h : p a <;> simp [List.flatMap_cons, List.filter_cons, h, ih]

theorem flatMap_const_nil {α β : Type} (l : List α) :
    (l.flatMap fun _ => ([] : List β)) = [] := by
  induction l with
  | nil => rfl
  | cons a t ih => simp [ih]

theorem computeSegments_filter_isSome (prices : PriceMap) (coins : List CoinConfig) :
    (computeSegments prices coins).filter (fun s => s.icon.isSome)
      = (coins.filter (activeBool prices)).map (priceSegment prices) := by
  unfold computeSegments
  rw [filter_flatMap_list]
  simp only [segmentsForCoin_filter_isSome]
  exact flatMap_ite_singleton coins (activeBool prices) (priceSegment prices)

theorem computeSegments_filter_isNone_length (prices : PriceMap) (coins : List CoinConfig) :
    ((computeSegments prices coins).filter (fun s => s.icon.isNone)).length
      = if 1 < activeCount prices coins then activeCount prices coins else 0 := by
  unfold computeSegments
  rw [filter_flatMap_list]
  simp only [segmentsForCoin_filter_isNone]
  by_cases hac : 1 < activeCount prices coins
  · rw [if_pos hac]
    simp only [hac, and_true]
    rw [flatMap_ite_singleton coins (activeBool prices) (fun _ =>
      ({ text := SEPARATOR, direction := Direction.Neutral, icon := none } : Segment))]
    rw [List.length_map]
    rfl
  · rw [if_neg hac]
    simp [hac, flatMap_const_nil]

/-- Value of `get_change` for a present record with positive reference
open whose computed change has numerator zero. -/
theorem get_change_neutral_zero (prices : PriceMap) (sym : String) (d : CoinData)
    (h : prices sym = some d) (ho : 0 < d.open_24h)
    (hz : ((d.price - d.open_24h) / d.open_24h * 100).num = 0) :
    get_change prices sym = ("0.0%", Direction.Neutral) := by
  unfold get_change
  rw [h]
  dsimp only
  rw [if_pos ho]
  have hden := ((d.price - d.open_24h) / d.open_24h * 100).den_pos
  have h100n : ((1 : F64)/100).num = 1 := rfl
  have h100d : ((1 : F64)/100).den = 100 := rfl
  have hc1 : ¬ (1/100 : F64) < (d.price - d.open_24h) / d.open_24h * 100 := by
    rw [F64.lt_def, hz, h100n, h100d]
    omega
  have hc2 : ¬ (d.price - d.open_24h) / d.open_24h * 100 < -(1/100 : F64) := by
    rw [F64.lt_def, hz]
    have hnn : (-(1/100 : F64)).num = -1 := rfl
    have hnd : (-(1/100 : F64)).den = 100 := rfl
    rw [hnn, hnd]
    omega
  rw [if_neg hc1, if_neg hc2, formatFixed_one_num_zero _ hz]
  rfl

/-- Numerator of the computed change is zero when price and reference
open coincide. -/
theorem change_num_zero_of_self (p : F64) (hp : 0 < p) :
    ((p - p) / p * 100).num = 0 := by
  have hsub : (p - p).num = 0 := by rw [F64.sub_num]; exact sub_self _
  have hdiv := (F64.div_num_of_pos (p - p) (F64.pos_num hp)).1
  rw [F64.mul_num, hdiv, hsub]
  simp

namespace Claims

/-- C3: for a symbol whose record has a positive reference open, the
change text and direction follow the dead-zoned classification of
`change = (price - open) / open * 100`; a non-positive reference open
yields the placeholder; and the three concrete classifications of the
spec hold. -/
theorem c3_change_classification (prices : PriceMap) (sym : String) (d : CoinData)
    (h : prices sym = some d) :
    (0 < d.open_24h →
      get_change prices sym =
        (if 1/100 < (d.price - d.open_24h) / d.open_24h * 100 then
          ("+" ++ formatFixed 1 ((d.price - d.open_24h) / d.open_24h * 100) ++ "%▲", Direction.Up)
         else if (d.price - d.open_24h) / d.open_24h * 100 < -(1/100) then
          (formatFixed 1 ((d.price - d.open_24h) / d.open_24h * 100) ++ "%▼", Direction.Down)
         else
          (formatFixed 1 ((d.price - d.open_24h) / d.open_24h * 100) ++ "%", Direction.Neutral))) ∧
    (¬ 0 < d.open_24h → get_change prices sym = ("--", Direction.Neutral)) ∧
    get_change (fun s => if s = "X" then some ⟨105, 100⟩ else none) "X"
      = ("+5.0%▲", Direction.Up) ∧
    get_change (fun s => if s = "X" then some ⟨95, 100⟩ else none) "X"
      = ("-5.0%▼", Direction.Down) ∧
    get_change (fun s => if s = "X" then some ⟨100.005, 100⟩ else none) "X"
      = ("0.0%", Direction.Neutral) := by
  refine ⟨?_, ?_, by decide, by decide, by decide⟩
  · intro ho
    unfold get_change
    rw [h]
    simp only [if_pos ho]
  · intro ho
    unfold get_change
    rw [h]
    simp only [if_neg ho]

/-- Witness for C3 at the concrete record price 105, reference open 100. -/
theorem c3_change_classification_witness :
    get_change (fun s => if s = "X" then some ⟨105, 100⟩ else none) "X"
      = ("+5.0%▲", Direction.Up) :=
  (c3_change_classification (fun s => if s = "X" then some ⟨105, 100⟩ else none)
    "X" ⟨105, 100⟩ (by decide)).2.2.1

/-- C4: the price string is a currency marker followed by the value at
0, 2, 4 or 6 decimal places according to the magnitude tier, and the four
concrete renderings of the spec hold. -/
theorem c4_price_formatting (p : F64) (_hp : 0 < p) :
    ((1000 ≤ p → format_price p = "$" ++ formatFixed 0 p) ∧
     (1 ≤ p → p < 1000 → format_price p = "$" ++ formatFixed 2 p) ∧
     (1/100 ≤ p → p < 1 → format_price p = "$" ++ formatFixed 4 p) ∧
     (p < 1/100 → format_price p = "$" ++ formatFixed 6 p)) ∧
    format_price 45231.7 = "$45232" ∧
    format_price 3.14159 = "$3.14" ∧
    format_price 0.03456 = "$0.0346" ∧
    format_price 0.0000123 = "$0.000012" := by
  refine ⟨⟨?_, ?_, ?_, ?_⟩, by decide, by decide, by decide, by decide⟩
  · intro h1
    unfold format_price
    rw [if_pos h1]
  · intro h1 h2
    unfold format_price
    rw [if_neg (F64.not_le.mpr h2), if_pos h1]
  · intro h1 h2
    have h3 : p < 1000 := by
      rw [F64.lt_def] at h2 ⊢
      have := p.den_pos
      revert h2
      show p.num * 1 < 1 * p.den → p.num * 1 < 1000 * p.den
      intro h2; nlinarith
    unfold format_price
    rw [if_neg (F64.not_le.mpr h3), if_neg (F64.not_le.mpr h2), if_pos h1]
  · intro h1
    have h2 : p < 1 := by
      rw [F64.lt_def] at h1 ⊢
      have := p.den_pos
      revert h1
      show p.num * 100 < 1 * p.den → p.num * 1 < 1 * p.den
      intro h1; nlinarith
    have h3 : p < 1000 := by
      rw [F64.lt_def] at h2 ⊢
      have := p.den_pos
      revert h2
      show p.num * 1 < 1 * p.den → p.num * 1 < 1000 * p.den
      intro h2; nlinarith
    have h4 : ¬ 1/100 ≤ p := by
      rw [F64.le_def]
      rw [F64.lt_def] at h1
      revert h1
      show p.num * 100 < 1 * p.den → ¬ 1 * p.den ≤ p.num * 100
      omega
    unfold format_price
    rw [if_neg (F64.not_le.mpr h3), if_neg (F64.not_le.mpr h2), if_neg h4]

/-- Witness for C4 at the concrete price 45231.7. -/
theorem c4_price_formatting_witness : format_price 45231.7 = "$45232" :=
  (c4_price_formatting 45231.7 (by decide)).2.1

/-- C5: with a positive cached total width the frame emits pass 1 at
`-(offset mod width)`, and pass 2 at `width - (offset mod width)` exactly
when that start lies left of the viewport; advancing the offset from 290
by 20 under width 300 wraps to 10 and puts the second pass at 290. -/
theorem c5_scroll_wraparound (offset cached viewport : F64) (_h : 0 < cached) :
    (draw_passes offset cached viewport).head? = some (-(fmod offset cached)) ∧
    (cached - fmod offset cached < viewport →
      draw_passes offset cached viewport
        = [-(fmod offset cached), cached - fmod offset cached]) ∧
    (¬ cached - fmod offset cached < viewport →
      draw_passes offset cached viewport = [-(fmod offset cached)]) ∧
    advance_offset 290 20 1 300 = 10 ∧
    fmod (advance_offset 290 20 1 300) 300 = 10 ∧
    draw_passes (advance_offset 290 20 1 300) 300 400 = [-10, 290] := by
  refine ⟨?_, ?_, ?_, by decide, by decide, by decide⟩
  · show (if cached - fmod offset cached < viewport then
        [-(fmod offset cached), cached - fmod offset cached]
      else [-(fmod offset cached)]).head? = some (-(fmod offset cached))
    split <;> rfl
  · intro h2
    show (if cached - fmod offset cached < viewport then
        [-(fmod offset cached), cached - fmod offset cached]
      else [-(fmod offset cached)]) = _
    rw [if_pos h2]
  · intro h2
    show (if cached - fmod offset cached < viewport then
        [-(fmod offset cached), cached - fmod offset cached]
      else [-(fmod offset cached)]) = _
    rw [if_neg h2]

/-- Witness for C5 at width 300, offset 10, viewport 400. -/
theorem c5_scroll_wraparound_witness :
    draw_passes (advance_offset 290 20 1 300) 300 400 = [-10, 290] :=
  (c5_scroll_wraparound 10 300 400 (by decide)).2.2.2.2.2

/-- C6: a ticker entry with symbol and last price applies
`update_price`; with a change value also present it applies
`set_open_price` with `last - change` exactly when that derived open is
positive, and otherwise only the price update happens. -/
theorem c6_ticker_entry (st : TickerState) (sym : String) (l c : F64) :
    process_ticker_entry st ⟨some sym, some l, none⟩ = update_price st sym l ∧
    (0 < l - c →
      process_ticker_entry st ⟨some sym, some l, some c⟩
        = set_open_price (update_price st sym l) sym (l - c)) ∧
    (¬ 0 < l - c →
      process_ticker_entry st ⟨some sym, some l, some c⟩ = update_price st sym l) := by
  refine ⟨rfl, ?_, ?_⟩
  · intro h
    unfold process_ticker_entry
    simp only [if_pos h]
  · intro h
    unfold process_ticker_entry
    simp only [if_neg h]

/-- Witness for C6: last 5, change 2 yields a reference-open update with
5 - 2 = 3. -/
theorem c6_ticker_entry_witness :
    process_ticker_entry (TickerState.new ⟨[]⟩) ⟨some "BTC/USD", some 5, some 2⟩
      = set_open_price (update_price (TickerState.new ⟨[]⟩) "BTC/USD" 5) "BTC/USD" (5 - 2) :=
  (c6_ticker_entry (TickerState.new ⟨[]⟩) "BTC/USD" 5 2).2.1 (by decide)

/-- C7: the three special-cased pairs translate through the fixed table
and every other symbol translates by removing slashes and uppercasing. -/
theorem c7_symbol_translation (s : String)
    (h : s ≠ "BTC/USD" ∧ s ≠ "ETH/USD" ∧ s ≠ "XRP/USD") :
    ws_to_rest_symbol "BTC/USD" = "XXBTZUSD" ∧
    ws_to_rest_symbol "ETH/USD" = "XETHZUSD" ∧
    ws_to_rest_symbol "XRP/USD" = "XXRPZUSD" ∧
    ws_to_rest_symbol s = toUpperStr (removeSlash s) := by
  refine ⟨by decide, by decide, by decide, ?_⟩
  unfold ws_to_rest_symbol
  rw [if_neg h.1, if_neg h.2.1, if_neg h.2.2]

/-- Witness for C7 at the generic symbol "sol/usd". -/
theorem c7_symbol_translation_witness :
    ws_to_rest_symbol "sol/usd" = toUpperStr (removeSlash "sol/usd") :=
  (c7_symbol_translation "sol/usd" (by decide)).2.2.2

/-- C1 counterexample: with two configured coins both priced, the rebuilt
sequence holds 4 segments with 2 separators — not the claimed
activeCount − 1 = 1 — and the last segment is a (dangling, trailing)
separator. -/
theorem c1_counterexample :
    ((applyOps
        (TickerState.new ⟨[⟨"BTC/USD", "Bitcoin", "btc"⟩, ⟨"ETH/USD", "Ethereum", "eth"⟩]⟩)
        [Op.upd "BTC/USD" 2000, Op.upd "ETH/USD" 1500]).segments.length = 4 ∧
      ((applyOps
        (TickerState.new ⟨[⟨"BTC/USD", "Bitcoin", "btc"⟩, ⟨"ETH/USD", "Ethereum", "eth"⟩]⟩)
        [Op.upd "BTC/USD" 2000, Op.upd "ETH/USD" 1500]).segments.filter
          (fun s => s.icon.isNone)).length = 2 ∧
      ¬ ((applyOps
        (TickerState.new ⟨[⟨"BTC/USD", "Bitcoin", "btc"⟩, ⟨"ETH/USD", "Ethereum", "eth"⟩]⟩)
        [Op.upd "BTC/USD" 2000, Op.upd "ETH/USD" 1500]).segments.filter
          (fun s => s.icon.isNone)).length = 2 - 1 ∧
      ((applyOps
        (TickerState.new ⟨[⟨"BTC/USD", "Bitcoin", "btc"⟩, ⟨"ETH/USD", "Ethereum", "eth"⟩]⟩)
        [Op.upd "BTC/USD" 2000, Op.upd "ETH/USD" 1500]).segments.getLast?.map
          (fun s => s.icon.isNone)) = some true) := by
  decide

/-- C1 (amended): after any sequence of update_price/set_open_price calls
the sequence holds one price segment per configured instrument with a
positive price, and one separator segment after every such price segment
(a trailing one included) when the active count exceeds 1 — so
activeCount separators — and zero separators when the active count is 0
or 1. -/
theorem c1_segment_separator_shape (cfg : Config) (ops : List Op) :
    ((applyOps (TickerState.new cfg) ops).segments.filter
        (fun s => s.icon.isSome)).length
      = activeCount (applyOps (TickerState.new cfg) ops).prices
          (applyOps (TickerState.new cfg) ops).coins ∧
    ((applyOps (TickerState.new cfg) ops).segments.filter
        (fun s => s.icon.isNone)).length
      = (if 1 < activeCount (applyOps (TickerState.new cfg) ops).prices
              (applyOps (TickerState.new cfg) ops).coins
         then activeCount (applyOps (TickerState.new cfg) ops).prices
                (applyOps (TickerState.new cfg) ops).coins
         else 0) := by
  have hseg := applyOps_segments ops (TickerState.new cfg) (new_segments cfg)
  constructor
  · rw [hseg, computeSegments_filter_isSome, List.length_map]
    rfl
  · rw [hseg, computeSegments_filter_isNone_length]

/-- C2: a price update for an unseen symbol seeds the reference open to
the price (so the change reads 0.0% Neutral), a reference-open update for
an unseen symbol seeds price 0 (leaving every coin with that symbol
inactive), and both calls rebuild the segment sequence from the updated
store. -/
theorem c2_new_symbol_seeding (st : TickerState) (sym : String) (p openp : F64)
    (h : st.prices sym = none) (hp : 0 < p) :
    (update_price st sym p).prices sym = some ⟨p, p⟩ ∧
    get_change (update_price st sym p).prices sym = ("0.0%", Direction.Neutral) ∧
    (set_open_price st sym openp).prices sym = some ⟨0, openp⟩ ∧
    (∀ c : CoinConfig, c.symbol = sym →
      activeBool (set_open_price st sym openp).prices c = false) ∧
    (update_price st sym p).segments
      = computeSegments (update_price st sym p).prices (update_price st sym p).coins ∧
    (set_open_price st sym openp).segments
      = computeSegments (set_open_price st sym openp).prices
          (set_open_price st sym openp).coins := by
  have h1 : (update_price st sym p).prices sym = some ⟨p, p⟩ := by
    rw [update_price_prices_none st sym p h]
    simp
  have h3 : (set_open_price st sym openp).prices sym = some ⟨0, openp⟩ := by
    rw [set_open_price_prices_none st sym openp h]
    simp
  refine ⟨h1, ?_, h3, ?_, rfl, rfl⟩
  · exact get_change_neutral_zero _ sym ⟨p, p⟩ h1 hp (change_num_zero_of_self p hp)
  · intro c hc
    unfold activeBool
    rw [hc, h3]
    apply decide_eq_false
    rw [F64.lt_def]
    simp

/-- Witness for C2: seeding a fresh "BTC/USD" record by price 5 and, on a
fresh state, by reference open 10. -/
theorem c2_new_symbol_seeding_witness :
    (update_price (TickerState.new ⟨[⟨"BTC/USD", "Bitcoin", "btc"⟩]⟩) "BTC/USD" 5).prices
        "BTC/USD" = some ⟨5, 5⟩ ∧
    (set_open_price (TickerState.new ⟨[⟨"BTC/USD", "Bitcoin", "btc"⟩]⟩) "BTC/USD" 10).prices
        "BTC/USD" = some ⟨0, 10⟩ :=
  ⟨(c2_new_symbol_seeding (TickerState.new ⟨[⟨"BTC/USD", "Bitcoin", "btc"⟩]⟩)
      "BTC/USD" 5 10 rfl (by decide)).1,
   (c2_new_symbol_seeding (TickerState.new ⟨[⟨"BTC/USD", "Bitcoin", "btc"⟩]⟩)
      "BTC/USD" 5 10 rfl (by decide)).2.2.1⟩

/-- C8: after any call sequence the non-separator segments are exactly
the price segments of the configured coins with positive price, in
configured order; coins outside the configured list never contribute. -/
theorem c8_segment_order (cfg : Config) (ops : List Op) :
    (applyOps (TickerState.new cfg) ops).segments.filter (fun s => s.icon.isSome)
      = (cfg.coins.filter (activeBool (applyOps (TickerState.new cfg) ops).prices)).map
          (priceSegment (applyOps (TickerState.new cfg) ops).prices) := by
  have hseg := applyOps_segments ops (TickerState.new cfg) (new_segments cfg)
  have hcoins : (applyOps (TickerState.new cfg) ops).coins = cfg.coins :=
    applyOps_coins ops (TickerState.new cfg)
  rw [hseg, hcoins, computeSegments_filter_isSome]

/-- C9: on a symbol with an existing record, update_price changes only
the price field, set_open_price changes only the reference-open field,
records of other symbols are untouched, and no operation ever removes a
record. -/
theorem c9_record_mutation (st : TickerState) (sym : String) (p openp : F64) (d : CoinData)
    (h : st.prices sym = some d) :
    (update_price st sym p).prices sym = some ⟨p, d.open_24h⟩ ∧
    (set_open_price st sym openp).prices sym = some ⟨d.price, openp⟩ ∧
    (∀ s, s ≠ sym →
      (update_price st sym p).prices s = st.prices s ∧
      (set_open_price st sym openp).prices s = st.prices s) ∧
    (∀ op s, (st.prices s).isSome → ((applyOp st op).prices s).isSome) := by
  refine ⟨?_, ?_, ?_, ?_⟩
  · rw [update_price_prices_some st sym p d h]
    simp
  · rw [set_open_price_prices_some st sym openp d h]
    simp
  · intro s hs
    constructor
    · rw [update_price_prices_some st sym p d h]
      simp [hs]
    · rw [set_open_price_prices_some st sym openp d h]
      simp [hs]
  · intro op s hs
    cases op with
    | upd sym2 v =>
      show ((update_price st sym2 v).prices s).isSome
      rcases hm : st.prices sym2 with _ | d2
      · rw [update_price_prices_none st sym2 v hm]
        by_cases hss : s = sym2 <;> simp [hss, hs]
      · rw [update_price_prices_some st sym2 v d2 hm]
        by_cases hss : s = sym2 <;> simp [hss, hs]
    | setOpen sym2 v =>
      show ((set_open_price st sym2 v).prices s).isSome
      rcases hm : st.prices sym2 with _ | d2
      · rw [set_open_price_prices_none st sym2 v hm]
        by_cases hss : s = sym2 <;> simp [hss, hs]
      · rw [set_open_price_prices_some st sym2 v d2 hm]
        by_cases hss : s = sym2 <;> simp [hss, hs]

/-- Witness for C9 on a record holding price 7, reference open 7. -/
theorem c9_record_mutation_witness :
    (update_price (update_price (TickerState.new ⟨[]⟩) "BTC/USD" 7) "BTC/USD" 9).prices
        "BTC/USD" = some ⟨9, 7⟩ ∧
    (set_open_price (update_price (TickerState.new ⟨[]⟩) "BTC/USD" 7) "BTC/USD" 11).prices
        "BTC/USD" = some ⟨7, 11⟩ :=
  ⟨(c9_record_mutation (update_price (TickerState.new ⟨[]⟩) "BTC/USD" 7)
      "BTC/USD" 9 11 ⟨7, 7⟩ (by decide)).1,
   (c9_record_mutation (update_price (TickerState.new ⟨[]⟩) "BTC/USD" 7)
      "BTC/USD" 9 11 ⟨7, 7⟩ (by decide)).2.1⟩

/-- C10: a repeated update_price with the same value leaves the segment
sequence of the second call identical to that of the first. -/
theorem c10_update_idempotent (st : TickerState) (sym : String) (p : F64) :
    (update_price (update_price st sym p) sym p).segments
      = (update_price st sym p).segments := by
  have hrec : ∃ o, (update_price st sym p).prices sym = some ⟨p, o⟩ := by
    rcases hm : st.prices sym with _ | d
    · rw [update_price_prices_none st sym p hm]
      exact ⟨p, by simp⟩
    · rw [update_price_prices_some st sym p d hm]
      exact ⟨d.open_24h, by simp⟩
  obtain ⟨o, ho⟩ := hrec
  have hmap : (update_price (update_price st sym p) sym p).prices
      = (update_price st sym p).prices := by
    rw [update_price_prices_some (update_price st sym p) sym p ⟨p, o⟩ ho]
    funext s
    by_cases hs : s = sym
    · rw [if_pos hs, hs, ho]
    · rw [if_neg hs]
  have hseg : ∀ Y : TickerState,
      (update_price Y sym p).segments
        = computeSegments (update_price Y sym p).prices Y.coins := fun Y => rfl
  rw [hseg, hseg, hmap, update_price_coins]

end Claims

end CryptoTicker
